import Mathlib

/-!
Verification of the RPM build orchestration pipeline (`src/builder.rs`).

The development shallowly embeds the builder: paths are strings, the
configuration snapshot is a record, external effects (the compiler, the
archive collaborator, the packaging tool, the filesystem) are abstracted as
step results, and the pure computations (output-path parsing, template
substitution, argument assembly, directory derivation) are translated
function by function from the source.  A Rust panic (out-of-bounds index)
is modelled as `Option.none` / `Except.error`, and `process::exit` as a
dedicated result constructor.
-/

/-! ### Constants (`builder.rs` lines 18-28) -/

/-- Default build profile to use (`DEFAULT_PROFILE`). -/
def DEFAULT_PROFILE : String := "release"

/-- Subdirectory of a Rust project in which RPM-related configs live (`RPM_CONFIG_DIR`). -/
def RPM_CONFIG_DIR : String := ".rpm"

/-- Placeholder string in the `.spec` file used for the version (`VERSION_PLACEHOLDER`). -/
def VERSION_PLACEHOLDER : String := "@@VERSION@@"

/-- Placeholder string in the `.spec` file used for the release (`RELEASE_PLACEHOLDER`). -/
def RELEASE_PLACEHOLDER : String := "@@RELEASE@@"

/-! ### Path model

`PathBuf::join` for the (relative, separator-free) components used by the
builder: pushing a component appends it after a `/` separator unless the
base already ends with a separator or is empty; pushing an absolute path
replaces the base; pushing the empty string appends just the separator.
This mirrors `std::path::PathBuf::push` on Unix.  Implemented over
`String.toList` so that it evaluates by `decide`/`rfl`. -/
def pathJoin (a b : String) : String :=
  if b.toList.headD ' ' = '/' then b
  else if a = "" then b
  else if a.toList.getLast? = some '/' then a ++ b
  else a ++ "/" ++ b

/-! ### Configuration snapshot

The `config` module is not part of the sources under verification; the
snapshot it supplies is modelled from the spec. -/

/-- Modelled from the spec: the cargo-related overrides inside
`[package.metadata.rpm]` — optional build profile, optional compiler target
triple, optional extra build flags (`config::CargoConfig`, consumed by
`Builder::new` and `Builder::cargo_build`). -/
structure CargoConfig where
  profile : Option String
  target : Option String
  buildflags : Option (List String)
deriving DecidableEq

/-- Modelled from the spec: the `[package.metadata.rpm]` block — optional
cargo overrides and an optional target-architecture override
(`config::RpmConfig`, consumed by `Builder::new` and `Builder::rpmbuild`). -/
structure RpmConfig where
  cargo : Option CargoConfig
  target_architecture : Option String
deriving DecidableEq

/-- Modelled from the spec: the `[package.metadata]` table, which may carry
an `rpm` block (accessed in `Builder::rpmbuild` as
`config.metadata.as_ref().and_then(|m| m.rpm.as_ref())`). -/
structure CrateMetadata where
  rpm : Option RpmConfig
deriving DecidableEq

/-- Modelled from the spec: the immutable project-metadata snapshot:
package name, resolved version and release (always resolvable once the
metadata is present), and the optional metadata table
(`config::PackageConfig`). -/
structure PackageConfig where
  name : String
  ver : String
  rel : String
  metadata : Option CrateMetadata
deriving DecidableEq

/-- Modelled from the spec: `PackageConfig::rpm_name` returns the package
name used for the RPM. -/
def PackageConfig.rpm_name (c : PackageConfig) : String := c.name

/-- Modelled from the spec: `PackageConfig::version` resolves the
`(version, release)` pair. -/
def PackageConfig.version (c : PackageConfig) : String × String := (c.ver, c.rel)

/-- Modelled from the spec: `PackageConfig::rpm_metadata` extracts the
`[package.metadata.rpm]` block when present. -/
def PackageConfig.rpm_metadata (c : PackageConfig) : Option RpmConfig :=
  c.metadata.bind CrateMetadata.rpm

/-! ### The builder (`builder.rs` lines 30-97) -/

/-- `Builder` (lines 30-52): configuration snapshot, verbosity flag,
skip-compile flag, optional output path, RPM config directory, build-output
(`target`) directory and `rpmbuild` work directory. -/
structure Builder where
  config : PackageConfig
  verbose : Bool
  no_cargo_build : Bool
  output_path : Option String
  rpm_config_dir : String
  target_dir : String
  rpmbuild_dir : String
deriving DecidableEq

/-- `Builder::new` (lines 56-97).  When the `[package.metadata.rpm]` block
is absent the source reports an error and calls `process::exit(1)`;
this termination is modelled as `none`.  Otherwise the profile defaults to
`DEFAULT_PROFILE` and the target to the empty string, and the two
directories are derived by `PathBuf::join`. -/
def Builder.new (config : PackageConfig) (verbose : Bool) (no_cargo_build : Bool)
    (output_path : Option String) (rpm_config_dir : String) (base_target_dir : String) :
    Option Builder :=
  match config.rpm_metadata with
  | none => none
  | some rpm_md =>
    let profile : String :=
      match rpm_md.cargo with
      | some cargo =>
        match cargo.profile with
        | some p => p
        | none => DEFAULT_PROFILE
      | none => DEFAULT_PROFILE
    let target : String :=
      match rpm_md.cargo with
      | some cargo =>
        match cargo.target with
        | some t => t
        | none => ""
      | none => ""
    let target_dir := pathJoin (pathJoin base_target_dir target) profile
    let rpmbuild_dir := pathJoin target_dir "rpmbuild"
    some (Builder.mk config verbose no_cargo_build output_path rpm_config_dir
      target_dir rpmbuild_dir)

/-- `Builder::rpm_metadata` (lines 124-127): `self.config.rpm_metadata().unwrap()`.
The `unwrap` panics exactly when the result here is `none`. -/
def Builder.rpm_metadata (b : Builder) : Option RpmConfig :=
  b.config.rpm_metadata

/-! ### Pipeline steps and `build()` (lines 100-122)

The external effects of the four steps are abstracted: each step produces
either success, an `Error` (propagated by `?`), or a process exit
(`process::exit`, which aborts everything).  `buildRun` instruments the
source's sequencing with the list of steps that were started. -/

/-- The four steps `build()` runs in order. -/
inductive Step
  | compile
  | archive
  | render_spec
  | rpmbuild
deriving DecidableEq

/-- Result of one step: success, an error returned via `?`, or a process
exit with a code (`process::exit`). -/
inductive StepRes (E : Type)
  | ok
  | err (e : E)
  | exit (code : Int)
deriving DecidableEq

/-- The tail of `build()` after the optional compile step:
`create_archive()? ; render_spec()? ; rpmbuild()?` with the accumulated
trace `t1`. -/
def buildTail {E : Type} (res : Step → StepRes E) (t1 : List Step) : StepRes E × List Step :=
  match res Step.archive with
  | StepRes.ok =>
    match res Step.render_spec with
    | StepRes.ok => (res Step.rpmbuild, t1 ++ [Step.archive, Step.render_spec, Step.rpmbuild])
    | r => (r, t1 ++ [Step.archive, Step.render_spec])
  | r => (r, t1 ++ [Step.archive])

/-- `Builder::build` (lines 100-122): run `cargo_build` unless
`no_cargo_build` is set, then archive, spec rendering and the packaging
tool, stopping at the first non-`ok` result.  Returns the final result and
the trace of steps started. -/
def buildRun {E : Type} (no_cargo_build : Bool) (res : Step → StepRes E) :
    StepRes E × List Step :=
  if no_cargo_build then
    buildTail res []
  else
    match res Step.compile with
    | StepRes.ok => buildTail res [Step.compile]
    | r => (r, [Step.compile])

/-- The full ordered step list of `build()` for a given skip-compile flag. -/
def buildOrder (no_cargo_build : Bool) : List Step :=
  (if no_cargo_build then [] else [Step.compile])
    ++ [Step.archive, Step.render_spec, Step.rpmbuild]

/-! ### The compile step (`cargo_build`, lines 130-158) -/

/-- Exit status of a spawned process: whether it succeeded and its exit
code when available (`std::process::ExitStatus`). -/
structure ExitStatus where
  success : Bool
  code : Option Int
deriving DecidableEq

/-- The build flags assembled by `cargo_build` (lines 131-141): a
`--target=<t>` flag when a target triple is configured, followed by the
configured extra build flags. -/
def cargo_build_flags (md : RpmConfig) : List String :=
  match md.cargo with
  | none => []
  | some cargo =>
    (match cargo.target with
     | some t => ["--target=" ++ t]
     | none => []) ++ cargo.buildflags.getD []

/-- `cargo_build` (lines 147-157) given the spawn result of `cargo build`:
an I/O error is returned via `?`; a non-success status triggers
`process::exit(status.code().unwrap_or(1))`; otherwise the step succeeds. -/
def cargo_build {E : Type} (spawn : Except E ExitStatus) : StepRes E :=
  match spawn with
  | Except.error e => StepRes.err e
  | Except.ok status =>
    if !status.success then StepRes.exit (status.code.getD 1)
    else StepRes.ok

/-! ### Archive and package file names (`create_archive` lines 161-178,
`rpmbuild` lines 234-236) -/

/-- The archive file name computed by `create_archive` (line 168):
`format!("{}-{}.tar.gz", rpm_name, version)`. -/
def Builder.archive_file (b : Builder) : String :=
  b.config.rpm_name ++ "-" ++ (b.config.version).1 ++ ".tar.gz"

/-- The archive path computed by `create_archive` (lines 162-169): the
archive file inside the `SOURCES` subdirectory of the work tree. -/
def Builder.archive_path (b : Builder) : String :=
  pathJoin (pathJoin b.rpmbuild_dir "SOURCES") b.archive_file

/-- The final package file name computed by `rpmbuild` (line 236):
`format!("{}-{}-{}.rpm", rpm_name, version, release)`. -/
def Builder.rpm_file (b : Builder) : String :=
  b.config.rpm_name ++ "-" ++ (b.config.version).1 ++ "-" ++ (b.config.version).2 ++ ".rpm"

/-! ### Template substitution (`render_spec`, lines 181-208)

`str::replace` scans left to right for non-overlapping occurrences of the
(non-empty) pattern and splices in the replacement.  It is implemented
here on `List Char` with an explicit fuel argument equal to the input
length, so that it is structurally recursive and evaluates inside
`decide`. -/

/-- Fuel-indexed core of `str::replace`: at each position, if the pattern
matches here, emit the replacement and skip the match, else keep the
character.  With `s.length ≤ fuel` the fuel never runs out. -/
def replaceF : Nat → List Char → List Char → List Char → List Char
  | 0, s, _, _ => s
  | _ + 1, [], _, _ => []
  | f + 1, c :: rest, pat, rep =>
    if pat ≠ [] ∧ pat.isPrefixOf (c :: rest) then
      rep ++ replaceF f (List.drop (pat.length - 1) rest) pat rep
    else
      c :: replaceF f rest pat rep

/-- Fuel-indexed count of the non-overlapping left-to-right occurrences of
a (non-empty) pattern, following the same scan as `replaceF`. -/
def countF : Nat → List Char → List Char → Nat
  | 0, _, _ => 0
  | _ + 1, [], _ => 0
  | f + 1, c :: rest, pat =>
    if pat ≠ [] ∧ pat.isPrefixOf (c :: rest) then
      countF f (List.drop (pat.length - 1) rest) pat + 1
    else
      countF f rest pat

/-- `str::replace` on character lists. -/
def replaceChars (s pat rep : List Char) : List Char :=
  replaceF s.length s pat rep

/-- Number of non-overlapping occurrences of `pat` in `s`. -/
def countOccs (s pat : List Char) : Nat :=
  countF s.length s pat

/-- `str::replace(s, pat, rep)` for the non-empty literal patterns used by
`render_spec`. -/
def rustReplace (s pat rep : String) : String :=
  List.asString (replaceChars s.toList pat.toList rep.toList)

/-- Number of non-overlapping occurrences of `pat` in the string `s`. -/
def strCount (s pat : String) : Nat :=
  countOccs s.toList pat.toList

/-- `render_spec` (lines 181-208), pure core: replace every occurrence of
`@@VERSION@@` with the resolved version, then every occurrence of
`@@RELEASE@@` in the result with the resolved release.  (Reading the
template and writing the rendered file are I/O abstracted away here.) -/
def render_spec (version release template : String) : String :=
  let spec_ver_rendered := rustReplace template VERSION_PLACEHOLDER version
  rustReplace spec_ver_rendered RELEASE_PLACEHOLDER release

/-! ### Output-path interpretation (`get_rpm_dir_and_filename`, lines 211-231) -/

/-- The default filename pattern handed to the packaging tool when the
output path is a directory. -/
def defaultFilenamePattern : List Char :=
  String.toList "%\x7bNAME\x7d-%\x7bVERSION\x7d-%\x7bRELEASE\x7d.%\x7bARCH\x7d.rpm"

/-- Rust `str::rsplitn(2, sep)`: the part after the last separator followed
by the part before it, or the whole string when the separator is absent. -/
def rsplitn2 (sep : Char) (s : List Char) : List (List Char) :=
  let a := s.reverse.takeWhile (fun c => c != sep)
  let b := s.reverse.dropWhile (fun c => c != sep)
  match b with
  | [] => [s]
  | _ :: rest => [a.reverse, rest.reverse]

/-- The closure inside `get_rpm_dir_and_filename` (lines 212-230) on one
path string: a trailing separator or an existing directory yields the path
itself with the default filename pattern; otherwise the path is split by
`rsplitn(2, '/')`, the filename is `parts[0]` and the directory is
`parts[1]`, normalised to `/` when empty.  When the path holds no `'/'` at
all, `rsplitn` yields a single part and the source's `path_str_parts[1]`
index panics: that is the `none` result. -/
def splitOutputPathL (is_dir : Bool) (p : List Char) : Option (List Char × List Char) :=
  if p.getLast? = some '/' ∨ is_dir then
    some (p, defaultFilenamePattern)
  else
    let path_str_parts := rsplitn2 '/' p
    match path_str_parts[1]? with
    | none => none
    | some second =>
      let filename := path_str_parts.headD []
      let dir := if second.isEmpty then ['/'] else second
      some (dir, filename)

/-- String-level wrapper of `splitOutputPathL`; `is_dir` stands for the
filesystem query `Path::new(path_str).is_dir()`. -/
def splitOutputPath (is_dir : Bool) (p : String) : Option (String × String) :=
  (splitOutputPathL is_dir p.toList).map
    (fun df => (List.asString df.1, List.asString df.2))

/-- `Builder::get_rpm_dir_and_filename` (lines 211-231): `ok none` when no
output path was supplied, `ok (some (dir, filename))` for a parsed
override, and `error ()` when the closure panics (separator-free path). -/
def Builder.get_rpm_dir_and_filename (b : Builder) (is_dir : String → Bool) :
    Except Unit (Option (String × String)) :=
  match b.output_path with
  | none => Except.ok none
  | some path_string =>
    match splitOutputPath (is_dir path_string) path_string with
    | none => Except.error ()
    | some df => Except.ok (some df)

/-! ### The packaging-tool invocation (`rpmbuild`, lines 234-291) -/

/-- The argument list assembled by `rpmbuild` (lines 254-283): the base
arguments, then — only when an output path override is present — the
`_rpmdir`/`_build_name_fmt` macro pair, then — only when a target
architecture is configured — the `--target` pair.  A panic inside
`get_rpm_dir_and_filename` propagates. -/
def Builder.rpmbuild_args (b : Builder) (is_dir : String → Bool) :
    Except Unit (List String) :=
  let spec_path := "SPECS/" ++ b.config.rpm_name ++ ".spec"
  let topdir_macro := "_topdir " ++ b.rpmbuild_dir
  let tmppath_macro := "_tmppath " ++ pathJoin b.rpmbuild_dir "tmp"
  let args := ["-ba", spec_path, "-D", topdir_macro, "-D", tmppath_macro]
  match b.get_rpm_dir_and_filename is_dir with
  | Except.error u => Except.error u
  | Except.ok odf =>
    let args := args ++
      (match odf with
       | some df => ["-D", "_rpmdir " ++ df.1, "-D", "_build_name_fmt " ++ df.2]
       | none => [])
    let arch := (b.config.metadata.bind CrateMetadata.rpm).bind RpmConfig.target_architecture
    let args := args ++
      (match arch with
       | some a => ["--target", a]
       | none => [])
    Except.ok args

/-- The six work-tree subdirectories created idempotently by `rpmbuild`
(line 247). -/
def workTreeSubdirs : List String :=
  ["RPMS", "SRPMS", "BUILD", "SOURCES", "SPECS", "tmp"]

instance {α β : Type} [DecidableEq α] [DecidableEq β] : DecidableEq (Except α β) := by
  intro a b
  cases a <;> cases b <;>
    first
      | (rename_i x y
         exact
           if h : x = y then isTrue (by rw [h])
           else isFalse (by intro hh; injection hh; contradiction))
      | exact isFalse (by intro hh; exact Except.noConfusion hh)

/-! ### Occurrence predicate and witness fixtures -/

/-- `pat` occurs as a contiguous substring of `s`. -/
def Occurs (pat s : List Char) : Prop :=
  ∃ a b, s = a ++ pat ++ b

/-- A concrete configuration snapshot with an RPM metadata block. -/
def cfgFoo : PackageConfig :=
  PackageConfig.mk "foo" "1.2.3" "1"
    (some (CrateMetadata.mk (some (RpmConfig.mk none none))))

/-- The builder `Builder::new` constructs from `cfgFoo` with an output-path
override. -/
def builderFoo : Builder :=
  Builder.mk cfgFoo false false (some "/out/custom.rpm") ".rpm"
    "target/release" "target/release/rpmbuild"

/-- A failing compiler status with exit code 7. -/
def stFail7 : ExitStatus := ExitStatus.mk false (some 7)

/-- Step results where the compiler fails with exit code 7 and every other
step succeeds. -/
def resExit7 : Step → StepRes Unit := fun s =>
  match s with
  | Step.compile => cargo_build (Except.ok stFail7)
  | _ => StepRes.ok

/-- Step results where every step succeeds. -/
def resAllOk : Step → StepRes Unit := fun _ => StepRes.ok

/-- A builder whose output-path override is a bare filename with no
separator. -/
def builderBare : Builder :=
  Builder.mk cfgFoo false false (some "foo.rpm") ".rpm"
    "target/release" "target/release/rpmbuild"


/-! ### Segment decomposition of the `str::replace` scan

To state that a replace pass keeps every character outside the substituted
occurrences, the scan of `replaceF` is refined into the list of
pattern-free segments it walks over: joining the segments with the pattern
re-assembles the input, and joining the same segments with the replacement
is exactly the output of the pass. -/

/-- Join a list of segments, inserting `sep` between consecutive
segments. -/
def joinSeps (sep : List Char) : List (List Char) → List Char
  | [] => []
  | [x] => x
  | x :: xs => x ++ sep ++ joinSeps sep xs

/-- Fuel-indexed segment decomposition following exactly the scan of
`replaceF`: a new (initially empty) segment starts after each
non-overlapping pattern match, and unmatched characters extend the current
segment. -/
def segsF : Nat → List Char → List Char → List (List Char)
  | 0, s, _ => [s]
  | _ + 1, [], _ => [[]]
  | f + 1, c :: rest, pat =>
    if pat ≠ [] ∧ pat.isPrefixOf (c :: rest) then
      [] :: segsF f (List.drop (pat.length - 1) rest) pat
    else
      match segsF f rest pat with
      | [] => [[c]]
      | seg :: segs => (c :: seg) :: segs

/-- The segments of `s` between the non-overlapping left-to-right
occurrences of `pat`. -/
def segments (s pat : List Char) : List (List Char) :=
  segsF s.length s pat

/-! ### String and list helper lemmas -/

/-- `asString` then `toList` is the identity. -/
theorem toList_asString (l : List Char) : (List.asString l).toList = l := rfl

/-- `toList` then `asString` is the identity. -/
theorem asString_toList (s : String) : List.asString s.toList = s := by
  cases s
  rfl

/-- Strings with the same character list are equal. -/
theorem string_eq_of_toList {s t : String} (h : s.toList = t.toList) : s = t := by
  cases s
  cases t
  simp only [String.toList] at h
  exact congrArg String.mk h

/-- `toList` distributes over string append. -/
theorem toList_append (x y : String) : (x ++ y).toList = x.toList ++ y.toList := by
  cases x
  cases y
  rfl

/-- The value of `getLast?` is a member of the list. -/
theorem mem_of_getLast?_eq {l : List Char} {a : Char} (h : l.getLast? = some a) : a ∈ l := by
  have h2 : a ∈ l.getLast? := h ▸ rfl
  rcases List.mem_getLast?_eq_getLast h2 with ⟨hne, rfl⟩
  exact List.getLast_mem hne

/-- `takeWhile`/`dropWhile` across an all-satisfying block followed by a
failing element. -/
theorem takeWhile_append_cons (pf : Char → Bool) (x : Char) (l₂ : List Char)
    (hx : pf x = false) :
    ∀ l₁ : List Char, (∀ a ∈ l₁, pf a = true) →
      (l₁ ++ x :: l₂).takeWhile pf = l₁ ∧ (l₁ ++ x :: l₂).dropWhile pf = x :: l₂ := by
  intro l₁
  induction l₁ with
  | nil => intro _; simp [List.takeWhile_cons, List.dropWhile_cons, hx]
  | cons a t ih =>
    intro h
    have ha : pf a = true := h a (List.mem_cons_self a t)
    have ht := ih (fun b hb => h b (List.mem_cons_of_mem a hb))
    simp [List.takeWhile_cons, List.dropWhile_cons, ha, ht.1, ht.2]

/-- `rsplitn2` on a string whose final separator splits off `suf`. -/
theorem rsplitn2_split (pre suf : List Char) (h : '/' ∉ suf) :
    rsplitn2 '/' (pre ++ '/' :: suf) = [suf, pre] := by
  have hall : ∀ a ∈ suf.reverse, (a != '/') = true := by
    intro a ha
    rw [List.mem_reverse] at ha
    simp only [bne_iff_ne, ne_eq]
    exact fun hEq => h (hEq ▸ ha)
  have hx : (('/' : Char) != '/') = false := by decide
  obtain ⟨ht, hd⟩ := takeWhile_append_cons (fun c => c != '/') '/' pre.reverse hx suf.reverse hall
  unfold rsplitn2
  rw [List.reverse_append, List.reverse_cons, List.append_assoc, List.singleton_append,
    ht, hd]
  simp [List.reverse_reverse]

/-- `rsplitn2` on a separator-free string returns the single whole part. -/
theorem rsplitn2_no_sep (p : List Char) (h : '/' ∉ p) : rsplitn2 '/' p = [p] := by
  have hdw : p.reverse.dropWhile (fun c => c != '/') = [] := by
    rw [List.dropWhile_eq_nil_iff]
    intro a ha
    rw [List.mem_reverse] at ha
    simp only [bne_iff_ne, ne_eq]
    exact fun hEq => h (hEq ▸ ha)
  unfold rsplitn2
  rw [hdw]

/-- The split branch of `splitOutputPathL`: a path with a final `/`
followed by a non-empty separator-free filename. -/
theorem splitOutputPathL_split (pre suf : List Char) (h : '/' ∉ suf) (hne : suf ≠ []) :
    splitOutputPathL false (pre ++ '/' :: suf)
      = some (if pre.isEmpty then ['/'] else pre, suf) := by
  have hlast : (pre ++ '/' :: suf).getLast? ≠ some '/' := by
    rw [List.getLast?_append_cons]
    cases suf with
    | nil => exact absurd rfl hne
    | cons a t =>
      rw [List.getLast?_cons_cons]
      intro hc
      exact h (mem_of_getLast?_eq hc)
  unfold splitOutputPathL
  rw [if_neg, rsplitn2_split pre suf h]
  · rfl
  · simp only [Bool.false_eq_true, or_false]
    exact hlast

/-- The panic branch of `splitOutputPathL`: a separator-free path makes the
source index `path_str_parts[1]` out of bounds. -/
theorem splitOutputPathL_no_slash (p : List Char) (h : '/' ∉ p) :
    splitOutputPathL false p = none := by
  have hlast : p.getLast? ≠ some '/' := fun hc => h (mem_of_getLast?_eq hc)
  unfold splitOutputPathL
  rw [if_neg, rsplitn2_no_sep p h]
  · rfl
  · simp only [Bool.false_eq_true, or_false]
    exact hlast

/-! ### Occurrence lemmas for `str::replace` -/

/-- A non-empty pattern does not occur in the empty string. -/
theorem not_occurs_nil {pat : List Char} (hpat : pat ≠ []) : ¬ Occurs pat [] := by
  rintro ⟨a, b, hab⟩
  rcases List.append_eq_nil.mp hab.symm with ⟨h1, _⟩
  exact hpat (List.append_eq_nil.mp h1).2

/-- An occurrence in `c :: t` is either an occurrence at the head or an
occurrence in the tail. -/
theorem occurs_cons {pat : List Char} {c : Char} {t : List Char}
    (h : Occurs pat (c :: t)) : pat <+: (c :: t) ∨ Occurs pat t := by
  rcases h with ⟨a, b, hab⟩
  cases a with
  | nil =>
    left
    exact ⟨b, by simpa using hab.symm⟩
  | cons x a' =>
    right
    refine ⟨a', b, ?_⟩
    simp only [List.cons_append] at hab
    injection hab with _ h2

/-- Occurrences are stable under prepending. -/
theorem occurs_append_left {pat : List Char} (u : List Char) {t : List Char}
    (h : Occurs pat t) : Occurs pat (u ++ t) := by
  rcases h with ⟨a, b, rfl⟩
  exact ⟨u ++ a, b, by simp [List.append_assoc]⟩

/-- An occurrence in a `drop` is an occurrence in the whole list. -/
theorem occurs_drop {pat s : List Char} {n : Nat} (h : Occurs pat (s.drop n)) :
    Occurs pat s := by
  have h2 := occurs_append_left (s.take n) h
  rwa [List.take_append_drop] at h2

/-- When a non-empty pattern matches at the head of `c :: rest`, the list
decomposes into the pattern followed by the tail that `replaceF` recurses
on. -/
theorem prefix_drop_decomp {pat : List Char} {c : Char} {rest : List Char}
    (hpat : pat ≠ []) (h : pat <+: (c :: rest)) :
    c :: rest = pat ++ List.drop (pat.length - 1) rest := by
  rcases h with ⟨t, ht⟩
  have hl : pat.length - 1 + 1 = pat.length :=
    Nat.succ_pred_eq_of_pos (List.length_pos.mpr hpat)
  have hdrop : List.drop pat.length (c :: rest) = t := by
    rw [← ht, List.drop_left]
  rw [← hl, List.drop_succ_cons] at hdrop
  rw [hdrop]
  exact ht.symm

/-- A scan that finds no occurrence counts zero. -/
theorem countF_eq_zero {pat : List Char} (hpat : pat ≠ []) :
    ∀ (f : Nat) (s : List Char), s.length ≤ f → ¬ Occurs pat s → countF f s pat = 0 := by
  intro f
  induction f with
  | zero => intro s _ _; rfl
  | succ f ih =>
    intro s hf hno
    cases s with
    | nil => rfl
    | cons c rest =>
      have hrl : rest.length ≤ f := by
        rw [List.length_cons] at hf
        exact Nat.le_of_succ_le_succ hf
      simp only [countF]
      split
      · rename_i hcond
        exact absurd
          ⟨[], List.drop (pat.length - 1) rest, by
            simpa using prefix_drop_decomp hpat (List.isPrefixOf_iff_prefix.mp hcond.2)⟩
          hno
      · exact ih rest hrl fun hocc => hno (by simpa using occurs_append_left [c] hocc)

/-- A non-empty prefix of a `replaceF` output whose characters all avoid
the replacement string is already a prefix of the input. -/
theorem prefix_replaceF {pat rep : List Char} (hrep : rep ≠ []) :
    ∀ (f : Nat) (s q : List Char), q ≠ [] → (∀ ch ∈ q, ch ∉ rep) →
      q <+: replaceF f s pat rep → q <+: s := by
  intro f
  induction f with
  | zero => intro s q _ _ h; exact h
  | succ f ih =>
    intro s q hq hqr h
    cases s with
    | nil => exact h
    | cons c rest =>
      simp only [replaceF] at h
      split at h
      · exfalso
        cases q with
        | nil => exact hq rfl
        | cons qh qt =>
          cases rep with
          | nil => exact hrep rfl
          | cons rh rt =>
            rcases h with ⟨t2, ht2⟩
            simp only [List.cons_append] at ht2
            injection ht2 with h1 _
            exact (hqr qh (List.mem_cons_self qh qt))
              (by rw [h1]; exact List.mem_cons_self rh rt)
      · cases q with
        | nil => exact absurd rfl hq
        | cons qh qt =>
          rcases h with ⟨t2, ht2⟩
          simp only [List.cons_append] at ht2
          injection ht2 with h1 h2
          by_cases hqt : qt = []
          · subst hqt
            subst h1
            exact ⟨rest, rfl⟩
          · have hqt2 := ih rest qt hqt
              (fun ch hch => hqr ch (List.mem_cons_of_mem qh hch)) ⟨t2, h2⟩
            rcases hqt2 with ⟨t3, ht3⟩
            exact ⟨t3, by rw [List.cons_append, h1, ht3]⟩

/-- No occurrence of a non-empty pattern spans a block of characters that
are all foreign to it. -/
theorem not_occurs_append {pat rep : List Char} (hpat : pat ≠ []) (hrep : rep ≠ [])
    (hd : ∀ ch ∈ rep, ch ∉ pat) {A B : List Char}
    (hA : ¬ Occurs pat A) (hB : ¬ Occurs pat B) : ¬ Occurs pat (A ++ rep ++ B) := by
  rintro ⟨a, b, hab⟩
  rw [List.append_assoc, List.append_assoc] at hab
  rcases List.append_eq_append_iff.mp hab with ⟨x, _, hx2⟩ | ⟨x, hx1, hx2⟩
  · rcases List.append_eq_append_iff.mp hx2 with ⟨y, _, hy2⟩ | ⟨y, hy1, hy2⟩
    · exact hB ⟨y, b, by rw [hy2, List.append_assoc]⟩
    · cases y with
      | nil =>
        exact hB ⟨[], b, by simpa using hy2.symm⟩
      | cons yh yt =>
        cases pat with
        | nil => exact hpat rfl
        | cons ph pt =>
          simp only [List.cons_append] at hy2
          injection hy2 with h1 _
          refine (hd yh ?_) ?_
          · rw [hy1]
            exact List.mem_append_right x (List.mem_cons_self yh yt)
          · rw [← h1]
            exact List.mem_cons_self ph pt
  · rcases List.append_eq_append_iff.mp hx2 with ⟨y, hy1, _⟩ | ⟨y, hy1, hy2⟩
    · exact hA ⟨a, y, by rw [hx1, hy1, List.append_assoc]⟩
    · cases y with
      | nil =>
        exact hA ⟨a, [], by rw [hx1]; simp [hy1]⟩
      | cons yh yt =>
        cases rep with
        | nil => exact hrep rfl
        | cons rh rt =>
          simp only [List.cons_append] at hy2
          injection hy2 with h1 _
          refine (hd rh (List.mem_cons_self rh rt)) ?_
          rw [h1, hy1]
          exact List.mem_append_right x (List.mem_cons_self yh yt)

/-- The output of `replaceF` holds no occurrence of the replaced pattern,
provided the replacement is non-empty and shares no character with the
pattern. -/
theorem replaceF_no_occurs {pat rep : List Char} (hpat : pat ≠ []) (hrep : rep ≠ [])
    (hd : ∀ ch ∈ rep, ch ∉ pat) :
    ∀ (f : Nat) (s : List Char), s.length ≤ f → ¬ Occurs pat (replaceF f s pat rep) := by
  intro f
  induction f with
  | zero =>
    intro s hf
    have hsnil : s = [] := List.length_eq_zero.mp (Nat.le_zero.mp hf)
    subst hsnil
    exact not_occurs_nil hpat
  | succ f ih =>
    intro s hf
    cases s with
    | nil => exact not_occurs_nil hpat
    | cons c rest =>
      have hrl : rest.length ≤ f := by
        rw [List.length_cons] at hf
        exact Nat.le_of_succ_le_succ hf
      simp only [replaceF]
      split
      · rename_i hcond
        have hdec := prefix_drop_decomp hpat (List.isPrefixOf_iff_prefix.mp hcond.2)
        have hlen : (List.drop (pat.length - 1) rest).length ≤ f := by
          rw [List.length_drop]
          exact le_trans (Nat.sub_le _ _) hrl
        have hX := ih _ hlen
        have h2 := not_occurs_append hpat hrep hd (not_occurs_nil hpat) hX
        simpa using h2
      · rename_i hcond
        intro hocc
        rcases occurs_cons hocc with hpre | hocc2
        · cases pat with
          | nil => exact hpat rfl
          | cons ph pt =>
            rcases hpre with ⟨t2, ht2⟩
            simp only [List.cons_append] at ht2
            injection ht2 with h1 h2
            by_cases hpt : pt = []
            · subst hpt
              exact hcond ⟨hpat, List.isPrefixOf_iff_prefix.mpr ⟨rest, by rw [h1]; rfl⟩⟩
            · have hchars : ∀ ch ∈ pt, ch ∉ rep :=
                fun ch hch hchrep => (hd ch hchrep) (List.mem_cons_of_mem ph hch)
              rcases prefix_replaceF hrep f rest pt hpt hchars ⟨t2, h2⟩ with ⟨t3, ht3⟩
              exact hcond
                ⟨hpat, List.isPrefixOf_iff_prefix.mpr ⟨t3, by rw [List.cons_append, h1, ht3]⟩⟩
        · exact ih rest hrl hocc2

/-- `replaceF` for one pattern cannot create an occurrence of another
non-empty pattern that was absent before, provided the replacement is
non-empty and shares no character with that other pattern. -/
theorem replaceF_pres_no_occurs {pat1 pat2 rep : List Char} (hpat2 : pat2 ≠ [])
    (hrep : rep ≠ []) (hd : ∀ ch ∈ rep, ch ∉ pat2) :
    ∀ (f : Nat) (s : List Char), s.length ≤ f → ¬ Occurs pat2 s →
      ¬ Occurs pat2 (replaceF f s pat1 rep) := by
  intro f
  induction f with
  | zero => intro s _ hs; exact hs
  | succ f ih =>
    intro s hf hs
    cases s with
    | nil => exact hs
    | cons c rest =>
      have hrl : rest.length ≤ f := by
        rw [List.length_cons] at hf
        exact Nat.le_of_succ_le_succ hf
      have hnorest : ¬ Occurs pat2 rest :=
        fun h2 => hs (by simpa using occurs_append_left [c] h2)
      simp only [replaceF]
      split
      · rename_i hcond
        have hnoX : ¬ Occurs pat2 (List.drop (pat1.length - 1) rest) :=
          fun h2 => hnorest (occurs_drop h2)
        have hlen : (List.drop (pat1.length - 1) rest).length ≤ f := by
          rw [List.length_drop]
          exact le_trans (Nat.sub_le _ _) hrl
        have hX := ih _ hlen hnoX
        have h2 := not_occurs_append hpat2 hrep hd (not_occurs_nil hpat2) hX
        simpa using h2
      · intro hocc
        rcases occurs_cons hocc with hpre | hocc2
        · cases pat2 with
          | nil => exact hpat2 rfl
          | cons ph pt =>
            rcases hpre with ⟨t2, ht2⟩
            simp only [List.cons_append] at ht2
            injection ht2 with h1 h2
            by_cases hpt : pt = []
            · subst hpt
              exact hs ⟨[], rest, by simp [h1]⟩
            · have hchars : ∀ ch ∈ pt, ch ∉ rep :=
                fun ch hch hchrep => (hd ch hchrep) (List.mem_cons_of_mem ph hch)
              rcases prefix_replaceF hrep f rest pt hpt hchars ⟨t2, h2⟩ with ⟨t3, ht3⟩
              exact hs ⟨[], t3, by simp [h1, ← ht3]⟩
        · exact ih rest hrl hnorest hocc2

/-- Length accounting for one `replaceF` pass: each counted occurrence
exchanges one copy of the pattern for one copy of the replacement and all
other characters are kept. -/
theorem replaceF_length {pat rep : List Char} (hpat : pat ≠ []) :
    ∀ (f : Nat) (s : List Char), s.length ≤ f →
      (replaceF f s pat rep).length + countF f s pat * pat.length
        = s.length + countF f s pat * rep.length := by
  intro f
  induction f with
  | zero =>
    intro s hf
    have hsnil : s = [] := List.length_eq_zero.mp (Nat.le_zero.mp hf)
    subst hsnil
    simp [replaceF, countF]
  | succ f ih =>
    intro s hf
    cases s with
    | nil => simp [replaceF, countF]
    | cons c rest =>
      have hrl : rest.length ≤ f := by
        rw [List.length_cons] at hf
        exact Nat.le_of_succ_le_succ hf
      simp only [replaceF, countF]
      split
      · rename_i hcond
        have hdec := prefix_drop_decomp hpat (List.isPrefixOf_iff_prefix.mp hcond.2)
        have hlen : (List.drop (pat.length - 1) rest).length ≤ f := by
          rw [List.length_drop]
          exact le_trans (Nat.sub_le _ _) hrl
        have hrec := ih _ hlen
        have hslen : (c :: rest).length
            = pat.length + (List.drop (pat.length - 1) rest).length := by
          rw [hdec, List.length_append]
        rw [List.length_cons] at hslen
        simp only [List.length_append, List.length_cons, Nat.succ_mul]
        omega
      · have hrec := ih rest hrl
        simp only [List.length_cons]
        omega

/-! ### Wrapper helpers -/

/-- A non-empty string has a non-empty character list. -/
theorem toList_ne_nil {s : String} (h : s ≠ "") : s.toList ≠ [] := by
  intro h2
  exact h (string_eq_of_toList (by rw [h2]; rfl))

/-- `asString` undoes the `data` projection. -/
theorem asString_data (s : String) : List.asString s.data = s := by
  cases s
  rfl

/-- `splitOutputPath` on a path that decomposes at its final separator. -/
theorem splitOutputPath_split_str (p : String) (pre suf : List Char)
    (h1 : p.toList = pre ++ '/' :: suf) (h2 : '/' ∉ suf) (h3 : suf ≠ []) :
    splitOutputPath false p
      = some (if pre.isEmpty then "/" else List.asString pre, List.asString suf) := by
  unfold splitOutputPath
  rw [h1, splitOutputPathL_split pre suf h2 h3]
  have hsl : List.asString ['/'] = "/" := rfl
  by_cases hp : pre.isEmpty
  · simp [hp, hsl]
  · simp [hp]

/-- `splitOutputPath` panics (yields `none`) on a separator-free path. -/
theorem splitOutputPath_no_slash (p : String) (h : '/' ∉ p.toList) :
    splitOutputPath false p = none := by
  unfold splitOutputPath
  rw [splitOutputPathL_no_slash p.toList h]
  rfl


/-! ### Segment decomposition lemmas -/

/-- Unfolding `joinSeps` on at least two segments. -/
theorem joinSeps_cons_cons (sep x y : List Char) (ys : List (List Char)) :
    joinSeps sep (x :: y :: ys) = x ++ sep ++ joinSeps sep (y :: ys) := rfl

/-- Unfolding `joinSeps` on one segment. -/
theorem joinSeps_singleton (sep x : List Char) : joinSeps sep [x] = x := rfl

/-- The segment decomposition is never empty. -/
theorem segsF_ne_nil : ∀ (f : Nat) (s pat : List Char), segsF f s pat ≠ [] := by
  intro f s pat
  match f, s with
  | 0, s => simp [segsF]
  | f + 1, [] => simp [segsF]
  | f + 1, c :: rest =>
    simp only [segsF]
    split
    · simp
    · split <;> simp

/-- Joining the segments with the pattern itself re-assembles the input. -/
theorem joinSeps_segsF (pat : List Char) (hpat : pat ≠ []) :
    ∀ (f : Nat) (s : List Char), s.length ≤ f → joinSeps pat (segsF f s pat) = s := by
  intro f
  induction f with
  | zero => intro s _; rfl
  | succ f ih =>
    intro s hf
    cases s with
    | nil => rfl
    | cons c rest =>
      have hrl : rest.length ≤ f := by
        rw [List.length_cons] at hf
        exact Nat.le_of_succ_le_succ hf
      simp only [segsF]
      split
      · rename_i hcond
        have hdec := prefix_drop_decomp hpat (List.isPrefixOf_iff_prefix.mp hcond.2)
        have hlen : (List.drop (pat.length - 1) rest).length ≤ f := by
          rw [List.length_drop]
          exact le_trans (Nat.sub_le _ _) hrl
        have ih2 := ih _ hlen
        cases hseg : segsF f (List.drop (pat.length - 1) rest) pat with
        | nil => exact absurd hseg (segsF_ne_nil f _ pat)
        | cons z zs =>
          rw [hseg] at ih2
          rw [joinSeps_cons_cons, List.nil_append, ih2]
          exact hdec.symm
      · have ih2 := ih rest hrl
        cases hseg : segsF f rest pat with
        | nil => exact absurd hseg (segsF_ne_nil f rest pat)
        | cons seg segs =>
          rw [hseg] at ih2
          simp only [hseg]
          cases segs with
          | nil =>
            rw [joinSeps_singleton] at ih2
            rw [joinSeps_singleton, ih2]
          | cons w ws =>
            rw [joinSeps_cons_cons] at ih2
            rw [joinSeps_cons_cons]
            simp only [List.cons_append, List.append_assoc] at ih2 ⊢
            rw [ih2]

/-- The output of a `replaceF` pass is the same segments joined with the
replacement: every character outside the substituted occurrences is kept. -/
theorem replaceF_eq_joinSeps (pat rep : List Char) (_hpat : pat ≠ []) :
    ∀ (f : Nat) (s : List Char), s.length ≤ f →
      replaceF f s pat rep = joinSeps rep (segsF f s pat) := by
  intro f
  induction f with
  | zero => intro s _; rfl
  | succ f ih =>
    intro s hf
    cases s with
    | nil => rfl
    | cons c rest =>
      have hrl : rest.length ≤ f := by
        rw [List.length_cons] at hf
        exact Nat.le_of_succ_le_succ hf
      simp only [replaceF, segsF]
      split
      · rename_i hcond
        have hlen : (List.drop (pat.length - 1) rest).length ≤ f := by
          rw [List.length_drop]
          exact le_trans (Nat.sub_le _ _) hrl
        have ih2 := ih _ hlen
        cases hseg : segsF f (List.drop (pat.length - 1) rest) pat with
        | nil => exact absurd hseg (segsF_ne_nil f _ pat)
        | cons z zs =>
          rw [hseg] at ih2
          rw [joinSeps_cons_cons, List.nil_append, ih2]
      · have ih2 := ih rest hrl
        cases hseg : segsF f rest pat with
        | nil => exact absurd hseg (segsF_ne_nil f rest pat)
        | cons seg segs =>
          rw [hseg] at ih2
          simp only [hseg]
          cases segs with
          | nil =>
            rw [joinSeps_singleton] at ih2
            rw [joinSeps_singleton, ih2]
          | cons w ws =>
            rw [joinSeps_cons_cons] at ih2
            rw [joinSeps_cons_cons]
            simp only [List.cons_append, List.append_assoc] at ih2 ⊢
            rw [ih2]

/-- There is one more segment than counted occurrences. -/
theorem segsF_length (pat : List Char) :
    ∀ (f : Nat) (s : List Char), s.length ≤ f →
      (segsF f s pat).length = countF f s pat + 1 := by
  intro f
  induction f with
  | zero => intro s _; rfl
  | succ f ih =>
    intro s hf
    cases s with
    | nil => rfl
    | cons c rest =>
      have hrl : rest.length ≤ f := by
        rw [List.length_cons] at hf
        exact Nat.le_of_succ_le_succ hf
      simp only [segsF, countF]
      split
      · rename_i hcond
        have hlen : (List.drop (pat.length - 1) rest).length ≤ f := by
          rw [List.length_drop]
          exact le_trans (Nat.sub_le _ _) hrl
        have ih2 := ih _ hlen
        simp [ih2]
      · have ih2 := ih rest hrl
        cases hseg : segsF f rest pat with
        | nil => exact absurd hseg (segsF_ne_nil f rest pat)
        | cons seg segs =>
          rw [hseg] at ih2
          simp only [hseg, List.length_cons] at ih2 ⊢
          exact ih2

/-- The head segment is a prefix of the scanned input. -/
theorem segsF_head_prefix :
    ∀ (f : Nat) (s pat seg : List Char) (segs : List (List Char)),
      segsF f s pat = seg :: segs → seg <+: s := by
  intro f
  induction f with
  | zero =>
    intro s pat seg segs h
    injection h with h1 _
    subst h1
    exact List.prefix_refl _
  | succ f ih =>
    intro s pat seg segs h
    cases s with
    | nil =>
      injection h with h1 _
      subst h1
      exact List.prefix_refl []
    | cons c rest =>
      simp only [segsF] at h
      split at h
      · injection h with h1 _
        subst h1
        exact List.nil_prefix
      · cases hseg : segsF f rest pat with
        | nil => exact absurd hseg (segsF_ne_nil f rest pat)
        | cons seg2 segs2 =>
          simp only [hseg] at h
          injection h with h1 _
          subst h1
          rcases ih rest pat seg2 segs2 hseg with ⟨t, ht⟩
          exact ⟨t, by rw [List.cons_append, ht]⟩

/-- No segment contains an occurrence of the (non-empty) pattern: the scan
substitutes at exactly the non-overlapping occurrences it counts. -/
theorem segsF_no_occurs (pat : List Char) (hpat : pat ≠ []) :
    ∀ (f : Nat) (s : List Char), s.length ≤ f →
      ∀ seg ∈ segsF f s pat, ¬ Occurs pat seg := by
  intro f
  induction f with
  | zero =>
    intro s hf seg hsegmem
    have hsnil : s = [] := List.length_eq_zero.mp (Nat.le_zero.mp hf)
    subst hsnil
    simp only [segsF, List.mem_singleton] at hsegmem
    subst hsegmem
    exact not_occurs_nil hpat
  | succ f ih =>
    intro s hf seg hsegmem
    cases s with
    | nil =>
      simp only [segsF, List.mem_singleton] at hsegmem
      subst hsegmem
      exact not_occurs_nil hpat
    | cons c rest =>
      have hrl : rest.length ≤ f := by
        rw [List.length_cons] at hf
        exact Nat.le_of_succ_le_succ hf
      simp only [segsF] at hsegmem
      split at hsegmem
      · have hlen : (List.drop (pat.length - 1) rest).length ≤ f := by
          rw [List.length_drop]
          exact le_trans (Nat.sub_le _ _) hrl
        rcases List.mem_cons.mp hsegmem with h1 | h2
        · subst h1
          exact not_occurs_nil hpat
        · exact ih _ hlen seg h2
      · rename_i hcond
        cases hseg : segsF f rest pat with
        | nil => exact absurd hseg (segsF_ne_nil f rest pat)
        | cons seg2 segs2 =>
          simp only [hseg] at hsegmem
          rcases List.mem_cons.mp hsegmem with h1 | h2
          · subst h1
            intro hocc
            rcases occurs_cons hocc with hpre | hocc2
            · rcases segsF_head_prefix f rest pat seg2 segs2 hseg with ⟨t, ht⟩
              rcases hpre with ⟨t2, ht2⟩
              apply hcond
              refine ⟨hpat, List.isPrefixOf_iff_prefix.mpr ⟨t2 ++ t, ?_⟩⟩
              rw [← List.append_assoc, ht2, List.cons_append, ht]
            · exact ih rest hrl seg2 (by rw [hseg]; exact List.mem_cons_self _ _) hocc2
          · exact ih rest hrl seg (by rw [hseg]; exact List.mem_cons_of_mem _ h2)

/-! ### Claim C1 -/

/-- Claim C1 is false as stated: on the bare filename `"foo.rpm"` (no
separator, not a directory) `get_rpm_dir_and_filename` does not return
`("/", "foo.rpm")` — the `path_str_parts[1]` index is out of bounds and the
call panics (modelled as `Except.error ()`). -/
theorem c1_counterexample :
    builderBare.get_rpm_dir_and_filename (fun _ => false) = Except.error ()
  ∧ builderBare.get_rpm_dir_and_filename (fun _ => false)
      ≠ Except.ok (some ("/", "foo.rpm")) := by
  have h1 : builderBare.get_rpm_dir_and_filename (fun _ => false) = Except.error () := rfl
  refine ⟨h1, ?_⟩
  intro hc
  rw [h1] at hc
  exact Except.noConfusion hc

/-- Claim C1 (amended): for every output-path string containing no `/`
separator (and not naming an existing directory), `get_rpm_dir_and_filename`
panics on the out-of-bounds index `path_str_parts[1]` (modelled as
`Except.error ()`) instead of returning `("/", input)`; the
`("/", filename)` result arises for the input with a single leading `/`
prepended. -/
theorem c1_amended (b : Builder) (is_dir : String → Bool) (p : String)
    (hop : b.output_path = some p) (h : '/' ∉ p.toList) (hd : is_dir p = false) :
    b.get_rpm_dir_and_filename is_dir = Except.error ()
  ∧ (p ≠ "" → splitOutputPath false ("/" ++ p) = some ("/", p)) := by
  constructor
  · unfold Builder.get_rpm_dir_and_filename
    rw [hop]
    simp only [hd, splitOutputPath_no_slash p h]
  · intro hne
    have hlist : ("/" ++ p).toList = [] ++ '/' :: p.toList := by
      rw [toList_append]
      rfl
    have hsl : List.asString ['/'] = "/" := by decide
    rw [splitOutputPath_split_str ("/" ++ p) [] p.toList hlist h (toList_ne_nil hne)]
    simp [asString_data, hsl]

/-- Witness for C1 at the concrete bare filename `"foo.rpm"`. -/
theorem c1_witness :
    builderBare.get_rpm_dir_and_filename (fun _ => false) = Except.error ()
  ∧ splitOutputPath false ("/" ++ "foo.rpm") = some ("/", "foo.rpm") :=
  ⟨(c1_amended builderBare (fun _ => false) "foo.rpm" rfl (by decide) rfl).1,
   (c1_amended builderBare (fun _ => false) "foo.rpm" rfl (by decide) rfl).2
     (by decide)⟩

/-! ### Claim C5 -/

/-- Claim C5: an output path with a trailing `/` or naming an existing
directory yields the path itself with the default filename pattern
`%-NAME-VERSION-RELEASE-ARCH-` pattern; any other path containing a `/`
splits at the final `/` into the explicit directory (normalised to `"/"`
when the part before the final separator is empty) and the filename. -/
theorem c5 (p : String) (is_dir : Bool) (pre suf : List Char) :
    ((p.toList.getLast? = some '/' ∨ is_dir = true) →
      splitOutputPath is_dir p
        = some (p, "%\x7bNAME\x7d-%\x7bVERSION\x7d-%\x7bRELEASE\x7d.%\x7bARCH\x7d.rpm"))
  ∧ (is_dir = false → p.toList = pre ++ '/' :: suf → '/' ∉ suf → suf ≠ [] →
      splitOutputPath is_dir p
        = some (if pre.isEmpty then "/" else List.asString pre, List.asString suf)) := by
  constructor
  · intro hcond
    unfold splitOutputPath splitOutputPathL
    rw [if_pos hcond]
    have h2 : List.asString defaultFilenamePattern
        = "%\x7bNAME\x7d-%\x7bVERSION\x7d-%\x7bRELEASE\x7d.%\x7bARCH\x7d.rpm" := by
      decide
    simp [asString_data, h2]
  · intro hdir h1 h2 h3
    subst hdir
    exact splitOutputPath_split_str p pre suf h1 h2 h3

/-- Witness for C5 at the spec's own examples `"/out/"` and
`"/out/custom.rpm"`. -/
theorem c5_witness :
    splitOutputPath false "/out/"
      = some ("/out/", "%\x7bNAME\x7d-%\x7bVERSION\x7d-%\x7bRELEASE\x7d.%\x7bARCH\x7d.rpm")
  ∧ splitOutputPath false "/out/custom.rpm" = some ("/out", "custom.rpm") := by
  constructor
  · exact (c5 "/out/" false [] []).1 (Or.inl (by decide))
  · have h := (c5 "/out/custom.rpm" false "/out".toList "custom.rpm".toList).2
      rfl (by decide) (by decide) (by decide)
    rw [h]
    decide

/-! ### Claim C10 -/

/-- Claim C10 is false as stated: for `"//a"` (contains `/`, does not end
in `/`, not a directory) the split yields directory `"/"` and filename
`"a"`, and since the directory is `"/"` the claim demands
`dir ++ filename = p`, but `"/" ++ "a" = "/a" ≠ "//a"`. -/
theorem c10_counterexample :
    splitOutputPath false "//a" = some ("/", "a")
  ∧ ("/" ++ "a" : String) ≠ "//a" := by
  decide

/-- Claim C10 (amended): the split reconstructs its input, but the case
distinction is on emptiness of the part before the final separator, not on
the directory being `"/"`: when that part is empty (input `"/<name>"`) the
directory is `"/"` and `dir ++ filename = p`; otherwise
`dir ++ "/" ++ filename = p` (this covers inputs such as `"//a"` whose
directory is also `"/"`). -/
theorem c10_amended (p : String) (pre suf : List Char)
    (h1 : p.toList = pre ++ '/' :: suf) (h2 : '/' ∉ suf) (h3 : suf ≠ []) :
    splitOutputPath false p
      = some (if pre.isEmpty then "/" else List.asString pre, List.asString suf)
  ∧ (pre ≠ [] → List.asString pre ++ "/" ++ List.asString suf = p)
  ∧ (pre = [] → "/" ++ List.asString suf = p) := by
  refine ⟨splitOutputPath_split_str p pre suf h1 h2 h3, ?_, ?_⟩
  · intro _
    apply string_eq_of_toList
    rw [toList_append, toList_append, toList_asString, toList_asString, h1]
    simp
  · intro hpre
    subst hpre
    apply string_eq_of_toList
    rw [toList_append, toList_asString, h1]
    rfl

/-- Witness for C10 at the concrete path `"/data/pkg.rpm"`. -/
theorem c10_witness :
    splitOutputPath false "/data/pkg.rpm" = some ("/data", "pkg.rpm")
  ∧ "/data" ++ "/" ++ "pkg.rpm" = "/data/pkg.rpm" := by
  have h := c10_amended "/data/pkg.rpm" "/data".toList "pkg.rpm".toList
    (by decide) (by decide) (by decide)
  constructor
  · rw [h.1]
    decide
  · have h2 := h.2.1 (by decide)
    rw [← h2]
    decide

/-! ### Claim C2 -/

/-- Claim C2 is false as stated: in the template `"@@VERSION@@RELEASE@@"`
the two placeholder occurrences overlap (M = 1 occurrence of
`@@RELEASE@@`), yet after the ordered substitutions with version `"1"` and
release `"XYZ"` the release value appears 0 times, not M = 1 times, and the
remaining content is not byte-identical outside substituted values. -/
theorem c2_counterexample :
    render_spec "1" "XYZ" "@@VERSION@@RELEASE@@" = "1RELEASE@@"
  ∧ strCount "@@VERSION@@RELEASE@@" RELEASE_PLACEHOLDER = 1
  ∧ strCount (render_spec "1" "XYZ" "@@VERSION@@RELEASE@@") "XYZ" = 0 := by
  decide

/-- Claim C2 (amended): `render_spec` performs the two ordered global
plaintext substitutions (all `@@VERSION@@` first, then all `@@RELEASE@@`).
Provided the substituted version and release values are non-empty and
contain no character occurring in either placeholder token, the output
contains zero occurrences of either placeholder, and each pass replaces
exactly the non-overlapping occurrences of its placeholder counted in its
own input — N occurrences of `@@VERSION@@` counted in the template, and
the `@@RELEASE@@` occurrences counted in the version-substituted
intermediate (which can differ from M counted in the raw input when
placeholder occurrences overlap, as in the counterexample) — keeping all
other characters byte-identically: each pass's input splits into
placeholder-free segments that re-assemble the input when joined by the
placeholder (one occurrence per junction, so one more segment than
counted occurrences), and the pass's output is exactly the same segments
joined by the substituted value; the length accounting follows. -/
theorem c2_amended (version release template : String)
    (hv : version ≠ "") (hr : release ≠ "")
    (hv1 : ∀ c ∈ version.toList, c ∉ VERSION_PLACEHOLDER.toList)
    (_hv2 : ∀ c ∈ version.toList, c ∉ RELEASE_PLACEHOLDER.toList)
    (hr1 : ∀ c ∈ release.toList, c ∉ VERSION_PLACEHOLDER.toList)
    (hr2 : ∀ c ∈ release.toList, c ∉ RELEASE_PLACEHOLDER.toList) :
    strCount (render_spec version release template) VERSION_PLACEHOLDER = 0
  ∧ strCount (render_spec version release template) RELEASE_PLACEHOLDER = 0
  ∧ joinSeps VERSION_PLACEHOLDER.toList
        (segments template.toList VERSION_PLACEHOLDER.toList)
      = template.toList
  ∧ (rustReplace template VERSION_PLACEHOLDER version).toList
      = joinSeps version.toList (segments template.toList VERSION_PLACEHOLDER.toList)
  ∧ (segments template.toList VERSION_PLACEHOLDER.toList).length
      = strCount template VERSION_PLACEHOLDER + 1
  ∧ (∀ seg ∈ segments template.toList VERSION_PLACEHOLDER.toList,
      ¬ Occurs VERSION_PLACEHOLDER.toList seg)
  ∧ joinSeps RELEASE_PLACEHOLDER.toList
        (segments (rustReplace template VERSION_PLACEHOLDER version).toList
          RELEASE_PLACEHOLDER.toList)
      = (rustReplace template VERSION_PLACEHOLDER version).toList
  ∧ (render_spec version release template).toList
      = joinSeps release.toList
          (segments (rustReplace template VERSION_PLACEHOLDER version).toList
            RELEASE_PLACEHOLDER.toList)
  ∧ (segments (rustReplace template VERSION_PLACEHOLDER version).toList
        RELEASE_PLACEHOLDER.toList).length
      = strCount (rustReplace template VERSION_PLACEHOLDER version) RELEASE_PLACEHOLDER + 1
  ∧ (∀ seg ∈ segments (rustReplace template VERSION_PLACEHOLDER version).toList
        RELEASE_PLACEHOLDER.toList,
      ¬ Occurs RELEASE_PLACEHOLDER.toList seg)
  ∧ (rustReplace template VERSION_PLACEHOLDER version).toList.length
      + strCount template VERSION_PLACEHOLDER * VERSION_PLACEHOLDER.toList.length
      = template.toList.length
        + strCount template VERSION_PLACEHOLDER * version.toList.length
  ∧ (render_spec version release template).toList.length
      + strCount (rustReplace template VERSION_PLACEHOLDER version) RELEASE_PLACEHOLDER
          * RELEASE_PLACEHOLDER.toList.length
      = (rustReplace template VERSION_PLACEHOLDER version).toList.length
        + strCount (rustReplace template VERSION_PLACEHOLDER version) RELEASE_PLACEHOLDER
          * release.toList.length := by
  have hVP : VERSION_PLACEHOLDER.toList ≠ [] := by decide
  have hRP : RELEASE_PLACEHOLDER.toList ≠ [] := by decide
  have hvl : version.toList ≠ [] := toList_ne_nil hv
  have hrl : release.toList ≠ [] := toList_ne_nil hr
  have hX1 : ¬ Occurs VERSION_PLACEHOLDER.toList
      (replaceChars template.toList VERSION_PLACEHOLDER.toList version.toList) :=
    replaceF_no_occurs hVP hvl hv1 template.toList.length template.toList le_rfl
  refine ⟨?_, ?_, ?_, ?_, ?_, ?_, ?_, ?_, ?_, ?_, ?_, ?_⟩
  · exact countF_eq_zero hVP _ _ le_rfl
      (replaceF_pres_no_occurs hVP hrl hr1 _ _ le_rfl hX1)
  · exact countF_eq_zero hRP _ _ le_rfl
      (replaceF_no_occurs hRP hrl hr2 _ _ le_rfl)
  · exact joinSeps_segsF VERSION_PLACEHOLDER.toList hVP
      template.toList.length template.toList le_rfl
  · exact replaceF_eq_joinSeps VERSION_PLACEHOLDER.toList version.toList hVP
      template.toList.length template.toList le_rfl
  · exact segsF_length VERSION_PLACEHOLDER.toList
      template.toList.length template.toList le_rfl
  · exact segsF_no_occurs VERSION_PLACEHOLDER.toList hVP
      template.toList.length template.toList le_rfl
  · exact joinSeps_segsF RELEASE_PLACEHOLDER.toList hRP
      (rustReplace template VERSION_PLACEHOLDER version).toList.length
      (rustReplace template VERSION_PLACEHOLDER version).toList le_rfl
  · exact replaceF_eq_joinSeps RELEASE_PLACEHOLDER.toList release.toList hRP
      (rustReplace template VERSION_PLACEHOLDER version).toList.length
      (rustReplace template VERSION_PLACEHOLDER version).toList le_rfl
  · exact segsF_length RELEASE_PLACEHOLDER.toList
      (rustReplace template VERSION_PLACEHOLDER version).toList.length
      (rustReplace template VERSION_PLACEHOLDER version).toList le_rfl
  · exact segsF_no_occurs RELEASE_PLACEHOLDER.toList hRP
      (rustReplace template VERSION_PLACEHOLDER version).toList.length
      (rustReplace template VERSION_PLACEHOLDER version).toList le_rfl
  · exact replaceF_length hVP template.toList.length template.toList le_rfl
  · exact replaceF_length hRP
      (replaceChars template.toList VERSION_PLACEHOLDER.toList version.toList).length
      (replaceChars template.toList VERSION_PLACEHOLDER.toList version.toList) le_rfl

/-- Witness for C2 at version `"1.2.3"`, release `"1"` and a template with
two version occurrences and one release occurrence: no placeholder
survives, and each pass's output is the pass's input segments re-joined
with the substituted value. -/
theorem c2_witness :
    strCount
        (render_spec "1.2.3" "1" "V: @@VERSION@@ R: @@RELEASE@@ V2: @@VERSION@@")
        VERSION_PLACEHOLDER = 0
  ∧ strCount
        (render_spec "1.2.3" "1" "V: @@VERSION@@ R: @@RELEASE@@ V2: @@VERSION@@")
        RELEASE_PLACEHOLDER = 0
  ∧ (rustReplace "V: @@VERSION@@ R: @@RELEASE@@ V2: @@VERSION@@"
        VERSION_PLACEHOLDER "1.2.3").toList
      = joinSeps "1.2.3".toList
          (segments "V: @@VERSION@@ R: @@RELEASE@@ V2: @@VERSION@@".toList
            VERSION_PLACEHOLDER.toList)
  ∧ (render_spec "1.2.3" "1" "V: @@VERSION@@ R: @@RELEASE@@ V2: @@VERSION@@").toList
      = joinSeps "1".toList
          (segments
            (rustReplace "V: @@VERSION@@ R: @@RELEASE@@ V2: @@VERSION@@"
              VERSION_PLACEHOLDER "1.2.3").toList
            RELEASE_PLACEHOLDER.toList)
  ∧ (segments "V: @@VERSION@@ R: @@RELEASE@@ V2: @@VERSION@@".toList
        VERSION_PLACEHOLDER.toList).length
      = strCount "V: @@VERSION@@ R: @@RELEASE@@ V2: @@VERSION@@" VERSION_PLACEHOLDER
          + 1 := by
  have h := c2_amended "1.2.3" "1" "V: @@VERSION@@ R: @@RELEASE@@ V2: @@VERSION@@"
    (by decide) (by decide) (by decide) (by decide) (by decide) (by decide)
  exact ⟨h.1, h.2.1, h.2.2.2.1, h.2.2.2.2.2.2.2.1, h.2.2.2.2.1⟩

/-! ### Claim C3 -/

/-- Claim C3: whenever `get_rpm_dir_and_filename` returns without
panicking, the packaging-tool argument list is exactly `-ba SPECS/<name>.spec
-D "_topdir <work-dir>" -D "_tmppath <work-dir>/tmp"`, extended with the
`_rpmdir`/`_build_name_fmt` macro pair exactly when an output-path override
was supplied, and with the `--target <arch>` pair exactly when a target
architecture is configured. -/
theorem c3 (b : Builder) (is_dir : String → Bool) (df : Option (String × String))
    (h : b.get_rpm_dir_and_filename is_dir = Except.ok df) :
    b.rpmbuild_args is_dir
      = Except.ok
          (["-ba", "SPECS/" ++ b.config.rpm_name ++ ".spec",
            "-D", "_topdir " ++ b.rpmbuild_dir,
            "-D", "_tmppath " ++ pathJoin b.rpmbuild_dir "tmp"]
            ++ (match df with
                | some d => ["-D", "_rpmdir " ++ d.1, "-D", "_build_name_fmt " ++ d.2]
                | none => [])
            ++ (match (b.config.metadata.bind CrateMetadata.rpm).bind
                  RpmConfig.target_architecture with
                | some a => ["--target", a]
                | none => []))
  ∧ df.isSome = b.output_path.isSome := by
  constructor
  · unfold Builder.rpmbuild_args
    simp only [h]
    cases df <;> rfl
  · unfold Builder.get_rpm_dir_and_filename at h
    cases hop : b.output_path with
    | none =>
      simp only [hop] at h
      injection h with h2
      rw [← h2]
      rfl
    | some p =>
      simp only [hop] at h
      cases hsp : splitOutputPath (is_dir p) p with
      | none =>
        simp only [hsp] at h
        exact Except.noConfusion h
      | some d =>
        simp only [hsp] at h
        injection h with h2
        rw [← h2]
        rfl

/-- Witness for C3 at a concrete builder with an output-path override and
no target architecture. -/
theorem c3_witness :
    builderFoo.rpmbuild_args (fun _ => false)
      = Except.ok
          ["-ba", "SPECS/foo.spec", "-D", "_topdir target/release/rpmbuild",
           "-D", "_tmppath target/release/rpmbuild/tmp",
           "-D", "_rpmdir /out", "-D", "_build_name_fmt custom.rpm"] := by
  have h := (c3 builderFoo (fun _ => false) (some ("/out", "custom.rpm")) (by decide)).1
  rw [h]
  decide

/-! ### Claim C4 -/

/-- Claim C4: `build()` runs compile (skipped as a no-op exactly when the
skip flag is set), archive, spec rendering and the tool invocation in this
strict order: the trace of started steps is a duplicate-free prefix of that
order, a successful run executes all of them, and a failing run stops at
the failing step, whose error is surfaced unchanged while every earlier
step succeeded. -/
theorem c4 {E : Type} (ncb : Bool) (res : Step → StepRes E) :
    (buildRun ncb res).2 <+: buildOrder ncb
  ∧ List.Nodup (buildRun ncb res).2
  ∧ (ncb = true → Step.compile ∉ (buildRun ncb res).2)
  ∧ ((buildRun ncb res).1 = StepRes.ok → (buildRun ncb res).2 = buildOrder ncb)
  ∧ (∀ e : E, (buildRun ncb res).1 = StepRes.err e →
      (buildRun ncb res).2 ≠ []
      ∧ (∀ s, (buildRun ncb res).2.getLast? = some s → res s = StepRes.err e)
      ∧ (∀ s, s ∈ (buildRun ncb res).2.dropLast → res s = StepRes.ok)) := by
  rcases hc : res Step.compile with _ | ec | cc <;>
    rcases ha : res Step.archive with _ | ea | ca <;>
      rcases hr : res Step.render_spec with _ | er | cr <;>
        rcases hb : res Step.rpmbuild with _ | eb | cb <;>
          cases ncb <;>
            refine ⟨?_, ?_, ?_, ?_, ?_⟩ <;>
              simp_all [buildRun, buildTail, buildOrder]

/-- Witness for C4: with all steps succeeding and compile not skipped, the
trace is the full ordered step list. -/
theorem c4_witness : (buildRun false resAllOk).2 = buildOrder false :=
  (c4 false resAllOk).2.2.2.1 rfl

/-! ### Claim C7 -/

/-- Claim C7: a failing compiler invocation terminates the whole run with
the compiler's exit code (defaulting to 1 when no code is available),
before the archive or spec-render steps run; in particular exit code 7
yields run exit code 7. -/
theorem c7 {E : Type} (st : ExitStatus) (res : Step → StepRes E)
    (h1 : st.success = false)
    (h2 : res Step.compile = cargo_build (Except.ok st)) :
    buildRun false res = (StepRes.exit (st.code.getD 1), [Step.compile])
  ∧ Step.archive ∉ (buildRun false res).2
  ∧ Step.render_spec ∉ (buildRun false res).2
  ∧ (st.code = some 7 → (buildRun false res).1 = StepRes.exit 7) := by
  have hc : res Step.compile = StepRes.exit (st.code.getD 1) := by
    rw [h2]
    simp [cargo_build, h1]
  refine ⟨?_, ?_, ?_, ?_⟩
  · simp [buildRun, hc]
  · simp [buildRun, hc]
  · simp [buildRun, hc]
  · intro h7
    simp [buildRun, hc, h7]

/-- Witness for C7: the concrete failing status with exit code 7 aborts the
run after the compile step with exit code 7. -/
theorem c7_witness : buildRun false resExit7 = (StepRes.exit 7, [Step.compile]) :=
  (c7 stFail7 resExit7 rfl rfl).1

/-! ### Claim C6 -/

/-- Claim C6: every builder `Builder::new` produces has
`target_dir = <base>/<target>/<profile>` (profile defaulting to the literal
`"release"`, target defaulting to the empty path segment) and
`rpmbuild_dir = <target_dir>/rpmbuild`; both are plain record fields fixed
at construction (no later operation writes them). -/
theorem c6 (cfg : PackageConfig) (v ncb : Bool) (op : Option String)
    (rcd base : String) (b : Builder)
    (h : Builder.new cfg v ncb op rcd base = some b) :
    b.rpmbuild_dir = pathJoin b.target_dir "rpmbuild"
  ∧ b.target_dir
      = pathJoin
          (pathJoin base
            (((cfg.rpm_metadata.bind RpmConfig.cargo).bind CargoConfig.target).getD ""))
          (((cfg.rpm_metadata.bind RpmConfig.cargo).bind CargoConfig.profile).getD
            DEFAULT_PROFILE)
  ∧ DEFAULT_PROFILE = "release" := by
  unfold Builder.new at h
  cases hm : cfg.rpm_metadata with
  | none =>
    simp only [hm] at h
    exact Option.noConfusion h
  | some md =>
    simp only [hm] at h
    injection h with h2
    subst h2
    refine ⟨rfl, ?_, rfl⟩
    cases hcg : md.cargo with
    | none => simp [hm, hcg, Option.bind]
    | some cargo =>
      cases hp : cargo.profile <;> cases ht : cargo.target <;>
        simp [hm, hcg, hp, ht, Option.bind]

/-- Witness for C6 at a concrete configuration with neither profile nor
target override. -/
theorem c6_witness :
    builderFoo.rpmbuild_dir = pathJoin builderFoo.target_dir "rpmbuild"
  ∧ builderFoo.target_dir
      = pathJoin
          (pathJoin "target"
            (((cfgFoo.rpm_metadata.bind RpmConfig.cargo).bind CargoConfig.target).getD ""))
          (((cfgFoo.rpm_metadata.bind RpmConfig.cargo).bind CargoConfig.profile).getD
            DEFAULT_PROFILE)
  ∧ DEFAULT_PROFILE = "release" :=
  c6 cfgFoo false false (some "/out/custom.rpm") ".rpm" "target" builderFoo (by decide)

/-! ### Claim C8 -/

/-- Claim C8: the archive file name is `<name>-<version>.tar.gz`, placed
under the `SOURCES` subdirectory of the work tree, and the final package
file name is `<name>-<version>-<release>.rpm`; for name `foo`, version
`1.2.3`, release `1` these are `foo-1.2.3.tar.gz` and `foo-1.2.3-1.rpm`. -/
theorem c8 (b : Builder) :
    b.archive_file = b.config.rpm_name ++ "-" ++ (b.config.version).1 ++ ".tar.gz"
  ∧ b.archive_path = pathJoin (pathJoin b.rpmbuild_dir "SOURCES") b.archive_file
  ∧ b.rpm_file
      = b.config.rpm_name ++ "-" ++ (b.config.version).1 ++ "-"
          ++ (b.config.version).2 ++ ".rpm"
  ∧ (b.config.rpm_name = "foo" → (b.config.version).1 = "1.2.3" →
      (b.config.version).2 = "1" →
      b.archive_file = "foo-1.2.3.tar.gz" ∧ b.rpm_file = "foo-1.2.3-1.rpm") := by
  refine ⟨rfl, rfl, rfl, ?_⟩
  intro h1 h2 h3
  unfold Builder.archive_file Builder.rpm_file
  rw [h1, h2, h3]
  exact ⟨by decide, by decide⟩

/-- Witness for C8 at the concrete `foo`/`1.2.3`/`1` configuration. -/
theorem c8_witness :
    builderFoo.archive_file = "foo-1.2.3.tar.gz"
  ∧ builderFoo.rpm_file = "foo-1.2.3-1.rpm" :=
  (c8 builderFoo).2.2.2 rfl rfl rfl

/-! ### Claim C9 -/

/-- Claim C9: every builder `Builder::new` returns carries the
configuration it was given, whose RPM metadata block is present (`new`
terminates the process — modelled as `none` — when it is absent), so the
`unwrap` inside `Builder::rpm_metadata` never panics in later steps. -/
theorem c9 (cfg : PackageConfig) (v ncb : Bool) (op : Option String)
    (rcd base : String) (b : Builder)
    (h : Builder.new cfg v ncb op rcd base = some b) :
    b.config = cfg ∧ (Builder.rpm_metadata b).isSome = true := by
  unfold Builder.new at h
  cases hm : cfg.rpm_metadata with
  | none =>
    simp only [hm] at h
    exact Option.noConfusion h
  | some md =>
    simp only [hm] at h
    injection h with h2
    subst h2
    refine ⟨rfl, ?_⟩
    unfold Builder.rpm_metadata
    simp [hm]

/-- Witness for C9 at a concrete configuration with metadata present. -/
theorem c9_witness :
    builderFoo.config = cfgFoo ∧ (Builder.rpm_metadata builderFoo).isSome = true :=
  c9 cfgFoo false false (some "/out/custom.rpm") ".rpm" "target" builderFoo (by decide)
